import Mathlib

/-!
Shallow embedding of `src/data/batch_generator.h` (marian batch generator).

Samples are tuples of fields; a field is a token sequence.  The generator
reads a window (maxi-batch) of samples from the dataset into a priority
queue, drains the queue in comparator order, cuts the drained stream into
batches under one of three sizing policies, optionally shuffles the
resulting batch list, and serves the batches through a single-slot
prefetch state machine (`next`).
-/

/-- Item models `Sample::value_type`: one field, a sequence of tokens. -/
abbrev Item := List Nat

/-- Sample models `DataSet::Sample`: an ordered tuple of fields. -/
abbrev Sample := List Item

/-- Batch models the result of `data_->toBatch(batchVector)`.
Modelled from the spec: the tensorizer is an external collaborator; the core
observes only `size()` (sample count), so a batch is kept as the sample
vector it was built from, with `size()` = list length. -/
abbrev Batch := List Sample

/-- The per-field comparator `itemCmp` from `fetchBatches`:
sort by element length, not content. -/
def itemCmp (sa sb : Item) : Bool := decide (sa.length < sb.length)

/-- Embedding of `std::lexicographical_compare(first1,last1,first2,last2,cmp)`
on lists: true iff the first range is lexicographically less. -/
def lexCompare (cmp : Item → Item → Bool) : List Item → List Item → Bool
  | _, [] => false
  | [], _ :: _ => true
  | a :: as, b :: bs =>
    if cmp a b then true
    else if cmp b a then false
    else lexCompare cmp as bs

/-- Comparator `cmpSrc`: lexicographic over fields in natural order. -/
def cmpSrc (a b : Sample) : Bool := lexCompare itemCmp a b

/-- Comparator `cmpTrg`: lexicographic over fields in reverse order
(`rbegin()/rend()`). -/
def cmpTrg (a b : Sample) : Bool := lexCompare itemCmp a.reverse b.reverse

/-- Comparator `cmpNone`: `&a < &b`, comparison of the samples' addresses.
In the source this compares the samples' CURRENT addresses, which change
as the heap moves elements between slots (and sift operations compare
against stack temporaries), so the resulting total order is tied to the
memory layout of a particular run and is not derivable from the samples'
values; the spec itself flags it as unspecified-but-total.  The model
stands in one arbitrary deterministic total order for it — slot-tagged
samples compared by `base + esz * slot` — used only so that the pipeline
is a total function.  No theorem below relies on which total order this
is: the concrete scenarios use the `src` ordering, and the conservation
results hold for every comparator. -/
def cmpNoneAddr (base esz : Nat) (a b : Nat × Sample) : Bool :=
  decide (base + esz * a.1 < base + esz * b.1)

/-- Comparator selection from `fetchBatches` (lines 112-121): `src` and
`none` are recognized; any other present value falls through to `cmpTrg`;
an absent option selects `cmpNone`. -/
def cmpOf (sortOpt : Option String) (base esz : Nat) :
    (Nat × Sample) → (Nat × Sample) → Bool :=
  match sortOpt with
  | some t =>
    if t = "src" then fun a b => cmpSrc a.2 b.2
    else if t = "none" then cmpNoneAddr base esz
    else fun a b => cmpTrg a.2 b.2
  | none => cmpNoneAddr base esz

/-- Model of `std::priority_queue::top/pop` for comparator `cmp` (a
strict "less"): removes a maximal element (`top()` is the largest under
the comparator), leaving the rest in their relative order.  Ties go to
the earlier element. -/
def popMax (cmp : α → α → Bool) : List α → Option (α × List α)
  | [] => none
  | a :: rest =>
    match popMax cmp rest with
    | none => some (a, [])
    | some (m, r) => if cmp a m then some (m, a :: r) else some (a, rest)

/-- Configuration options read by the generator.
Modelled from the spec: `common/options.h` is not part of the core; the
recognized options are `mini-batch`, `maxi-batch`, `maxi-batch-sort`,
`mini-batch-words`, `mini-batch-fit`, `no-restore-corpus`. -/
structure Config where
  miniBatch : Nat
  maxiBatch : Nat
  mbWords : Nat
  miniBatchFit : Bool
  maxiBatchSort : Option String
  noRestoreCorpus : Bool
deriving DecidableEq

/-- Sizing policy, decided once per fetch by the `if` chain at lines
168/187/191: dynamic batching wins when `mini-batch-fit` is set and stats
are present, else the word budget when `mini-batch-words > 0`, else the
fixed sentence count. -/
inductive Policy where
  | dynamicFit : Policy
  | wordBudget : Policy
  | fixedCount : Policy
deriving DecidableEq

/-- Policy selection mirroring `useDynamicBatching && stats_` /
`mbWords > 0` / fallthrough. -/
def policyOf (cfg : Config) (hasStats : Bool) : Policy :=
  if cfg.miniBatchFit && hasStats then Policy.dynamicFit
  else if 0 < cfg.mbWords then Policy.wordBudget
  else Policy.fixedCount

/-- Window capacity: `maxSize = mini-batch * maxi-batch` (line 124). -/
def maxSize (cfg : Config) : Nat := cfg.miniBatch * cfg.maxiBatch

/-- Sizes of a sample's fields, `s[i].size()` for each field. -/
def fieldSizes (s : Sample) : List Nat := s.map List.length

/-- Field sizes of a slot-tagged sample. -/
def fszTagged (p : Nat × Sample) : List Nat := fieldSizes p.2

/-- Per-field maxima update (lines 169-171): for each `i < sets`,
`lengths[i] = max(lengths[i], back[i].size())`. -/
def updLengths (lengths szs : List Nat) : List Nat :=
  (List.range lengths.length).map (fun i => max (lengths.getD i 0) (szs.getD i 0))

/-- The batch-cutting loop of `fetchBatches` (lines 161-212), generic in
the element type.  State: the remaining queue (`maxiBatch`), the current
`batchVector`, `currentWords`, and the per-field maxima `lengths`.
`fuel` bounds the number of iterations; the C++ loop terminates whenever
the stats oracle never returns 0, and the callers pass enough fuel for
that case.  Emission resets `batchVector`, `currentWords` and `lengths`
(lines 198-203); the trailing non-empty `batchVector` becomes a final
batch (lines 211-212). -/
def cutBatches (fsz : α → List Nat) (cmp : α → α → Bool) (pol : Policy)
    (stats : List Nat → Nat) (miniB mbW sets : Nat) :
    Nat → List α → List α → Nat → List Nat → List (List α)
  | 0, _, _, _, _ => []
  | fuel + 1, window, bv, cw, lengths =>
    match popMax cmp window with
    | none => if bv.isEmpty then [] else [bv]
    | some (top, rest) =>
      let bv1 := bv ++ [top]
      match pol with
      | Policy.dynamicFit =>
        let lengths1 := updLengths lengths (fsz top)
        let mbs := stats lengths1
        let window1 := if mbs < bv1.length then top :: rest else rest
        let bv2 := if mbs < bv1.length then bv1.dropLast else bv1
        if mbs ≤ bv1.length then
          bv2 :: cutBatches fsz cmp pol stats miniB mbW sets fuel window1 [] 0
            (List.replicate sets 0)
        else
          cutBatches fsz cmp pol stats miniB mbW sets fuel window1 bv2 cw lengths1
      | Policy.wordBudget =>
        let cw1 := cw + (fsz top).getD 0 0
        if mbW < cw1 then
          bv1 :: cutBatches fsz cmp pol stats miniB mbW sets fuel rest [] 0
            (List.replicate sets 0)
        else
          cutBatches fsz cmp pol stats miniB mbW sets fuel rest bv1 cw1 lengths
      | Policy.fixedCount =>
        if bv1.length = miniB then
          bv1 :: cutBatches fsz cmp pol stats miniB mbW sets fuel rest [] 0
            (List.replicate sets 0)
        else
          cutBatches fsz cmp pol stats miniB mbW sets fuel rest bv1 cw lengths

/-- Reading position of the dataset iterator `current_`.  `rest` is the
suffix of the dataset starting at the element `current_` points to;
`newlyPrepared` mirrors `newlyPrepared_` (the worker must reset the
iterator to `begin()` before reading). -/
structure Reader where
  rest : List Sample
  newlyPrepared : Bool
deriving DecidableEq

/-- The window-filling loop of `fetchBatches` (lines 136-144): push the
current sample while the queue is below `maxSize`; when the push fills
the queue exactly (`last`), do not advance the iterator, leaving
`current_` at the sample just consumed. -/
def readLoop (maxS : Nat) : List Sample → List Sample → List Sample × List Sample
  | acc, [] => (acc, [])
  | acc, s :: cur =>
    if acc.length < maxS then
      if acc.length + 1 = maxS then (acc ++ [s], s :: cur)
      else readLoop maxS (acc ++ [s]) cur
    else (acc, s :: cur)

/-- One window read (lines 128-145): on a newly prepared generator the
iterator is set to `begin()`, otherwise it is advanced off the sample it
was left on; then the filling loop runs. -/
def fetchRead (maxS : Nat) (data : List Sample) (r : Reader) :
    List Sample × Reader :=
  let cur := if r.newlyPrepared then data else r.rest.tail
  let (w, rest1) := readLoop maxS [] cur
  (w, ⟨rest1, false⟩)

/-- Samples still to be consumed from the given reading position. -/
def effRest (data : List Sample) (r : Reader) : List Sample :=
  if r.newlyPrepared then data else r.rest.tail

/-- Linear congruential step.
Modelled from the spec: the RNG engine (`data/rng_engine.h`) is an
external seedable deterministic generator with extractable state; any
deterministic generator is a faithful model. -/
def lcgNext (s : Nat) : Nat := (s * 1103515245 + 12345) % 2147483648

/-- Remove and return the element at the given index. -/
def extractAt : Nat → List α → Option (α × List α)
  | _, [] => none
  | 0, x :: xs => some (x, xs)
  | n + 1, x :: xs =>
    match extractAt n xs with
    | none => none
    | some (y, ys) => some (y, x :: ys)

/-- Fisher-Yates-style shuffle driven by the modelled RNG.
Modelled from the spec: `std::shuffle(tempBatches.begin(), tempBatches.end(), eng_)`
permutes the batch list deterministically from the engine state. -/
def shuffleAux : Nat → Nat → List α → List α × Nat
  | 0, s, l => (l, s)
  | fuel + 1, s, l =>
    match extractAt (s % l.length) l with
    | none => (l, s)
    | some (x, rest) =>
      let p := shuffleAux fuel (lcgNext s) rest
      (x :: p.1, p.2)

/-- Shuffle a list, returning the permuted list and the advanced RNG state. -/
def shuffleRng (s : Nat) (l : List α) : List α × Nat := shuffleAux l.length s l

/-- Core of `fetchBatches` (lines 85-228), with the queue comparator
already selected: read a window, drain the priority queue through the
batch cutter, and optionally shuffle the emitted batch list.  `sets` is
the field count of the last sample read (line 138). -/
def fetchCore (cmp : (Nat × Sample) → (Nat × Sample) → Bool) (pol : Policy)
    (stats : List Nat → Nat) (cfg : Config) (sh : Bool) (rng : Nat)
    (data : List Sample) (r : Reader) : List Batch × Reader × Nat :=
  let wr := fetchRead (maxSize cfg) data r
  let window := wr.1
  let sets := (window.getLast?).elim 0 List.length
  let tagged := window.enum
  let tb := cutBatches fszTagged cmp pol stats cfg.miniBatch cfg.mbWords sets
    (2 * tagged.length + 1) tagged [] 0 (List.replicate sets 0)
  let batches := tb.map (fun b => b.map Prod.snd)
  if sh then
    let p := shuffleRng rng batches
    (p.1, wr.2, p.2)
  else
    (batches, wr.2, rng)

/-- `fetchBatches`: selects the comparator from `maxi-batch-sort` and the
sizing policy, then runs the core.  `base`/`esz` locate the queue storage
in memory (used only by the address comparator `cmpNone`). -/
def fetchBatches (cfg : Config) (stats : Option (List Nat → Nat))
    (base esz : Nat) (sh : Bool) (rng : Nat) (data : List Sample)
    (r : Reader) : List Batch × Reader × Nat :=
  fetchCore (cmpOf cfg.maxiBatchSort base esz) (policyOf cfg stats.isSome)
    (stats.getD (fun _ => 0)) cfg sh rng data r

/-- Generator state for the prefetch pipeline.  `buffered` is
`bufferedBatches_`; `futValid` is `futureBufferedBatches_.valid()`; the
worker only runs between `next` calls, so the future is modelled by
running the fetch at join time on the captured reader/RNG state.
`dataRestored` records whether `data_->restore(state)` was invoked
(external dataset call, observable only). -/
structure Gen where
  data : List Sample
  reader : Reader
  rng : Nat
  buffered : List Batch
  futValid : Bool
  restored : Bool
  shuffleFlag : Bool
  dataRestored : Bool
deriving DecidableEq

/-- `next()` (lines 238-254): serve from the local buffer; when empty,
joining an invalid future is a protocol violation (`ABORT_IF`), modelled
as `none`; an empty joined window signals end of epoch (null batch, no
new prefetch); a non-empty one immediately schedules the next prefetch. -/
def next (cfg : Config) (stats : Option (List Nat → Nat)) (base esz : Nat)
    (g : Gen) : Option (Option Batch × Gen) :=
  match g.buffered with
  | b :: rest => some (some b, { g with buffered := rest })
  | [] =>
    if g.futValid then
      let res := fetchBatches cfg stats base esz g.shuffleFlag g.rng g.data g.reader
      match res.1 with
      | [] =>
        let g1 : Gen :=
          { g with buffered := [], reader := res.2.1, rng := res.2.2, futValid := false }
        some (none, g1)
      | b :: bs =>
        let g1 : Gen :=
          { g with buffered := bs, reader := res.2.1, rng := res.2.2, futValid := true }
        some (some b, g1)
    else none

/-- `prepare(shuffle)` (lines 277-299): a restore makes the next prepare
a no-op; otherwise shuffle or reset the dataset, mark the reader newly
prepared, record the shuffle flag, and schedule the initial prefetch
(`fetchBatchesAsync` aborts, modelled as `none`, if one is already
scheduled). -/
def prepare (sh : Bool) (g : Gen) : Option Gen :=
  if g.restored then some { g with restored := false }
  else
    let d := if sh then (shuffleRng g.rng g.data).1 else g.data
    let r1 : Reader := { g.reader with newlyPrepared := true }
    let g1 : Gen := { g with data := d, reader := r1, shuffleFlag := sh }
    if g1.futValid then none else some { g1 with futValid := true }

/-- Persisted training state consumed by `restore`.
Modelled from the spec: `training/training_state.h` is external; the
fields used are the epoch counter, the batches-within-epoch counter and
the batch-RNG seed. -/
structure TrainingState where
  epochs : Nat
  batchesEpoch : Nat
  seedBatch : Nat
deriving DecidableEq

/-- Iterated `next`, discarding results; aborts propagate. -/
def nextTimes (cfg : Config) (stats : Option (List Nat → Nat))
    (base esz : Nat) : Nat → Gen → Option Gen
  | 0, g => some g
  | n + 1, g =>
    match next cfg stats base esz g with
    | none => none
    | some p => nextTimes cfg stats base esz n p.2

/-- `restore(state, shuffle)` (lines 303-325): nothing to do at epoch 1
with zero batches; refused when `no-restore-corpus` is set; for epochs
beyond the first, restore the dataset (external call, recorded in
`dataRestored`) and the batch RNG from `state.seedBatch`; then prepare,
fast-forward `state.batchesEpoch` `next()` calls, and mark the generator
restored. -/
def restore (cfg : Config) (stats : Option (List Nat → Nat)) (base esz : Nat)
    (st : TrainingState) (sh : Bool) (g : Gen) : Option (Bool × Gen) :=
  if st.epochs = 1 ∧ st.batchesEpoch = 0 then some (false, g)
  else if cfg.noRestoreCorpus then some (false, g)
  else
    match prepare sh (if 1 < st.epochs then
        { g with rng := st.seedBatch, dataRestored := true } else g) with
    | none => none
    | some g2 =>
      match nextTimes cfg stats base esz st.batchesEpoch g2 with
      | none => none
      | some g3 => some (true, { g3 with restored := true })

/-- Successive windows of one epoch: repeat `fetchBatches` until a fetch
returns an empty batch deque. -/
def epochFetchList (cfg : Config) (stats : Option (List Nat → Nat))
    (base esz : Nat) (sh : Bool) (data : List Sample) :
    Nat → Nat → Reader → List (List Batch)
  | 0, _, _ => []
  | fuel + 1, rng, r =>
    let res := fetchBatches cfg stats base esz sh rng data r
    if res.1.isEmpty then []
    else res.1 :: epochFetchList cfg stats base esz sh data fuel res.2.2 res.2.1

/-- All batches of one epoch, in served order. -/
def epochBatches (cfg : Config) (stats : Option (List Nat → Nat))
    (base esz : Nat) (sh : Bool) (rng : Nat) (data : List Sample) : List Batch :=
  (epochFetchList cfg stats base esz sh data (data.length + 1) rng
    ⟨data, true⟩).flatten

/-- Drain the whole priority queue in pop order. -/
def drainAux (cmp : α → α → Bool) : Nat → List α → List α
  | 0, _ => []
  | fuel + 1, l =>
    match popMax cmp l with
    | none => []
    | some (m, r) => m :: drainAux cmp fuel r

/-- Pop sequence of a full queue. -/
def drainQ (cmp : α → α → Bool) (l : List α) : List α := drainAux cmp l.length l

/-- Field-0 lengths of each sample of each batch, for stating concrete
scenarios. -/
def batchLens (bs : List Batch) : List (List Nat) :=
  bs.map (fun b => b.map (fun s => (s.headD []).length))

/-- Single-field sample of a given field-0 length. -/
def mkSample (n : Nat) : Sample := [List.replicate n 0]

/-- The prefetch-overlap invariant: whenever the local buffer is
non-empty, a background fetch is scheduled. -/
def prefetchInv (g : Gen) : Prop := g.buffered ≠ [] → g.futValid = true

/-! Lemmas about the priority-queue model. -/

theorem popMax_eq_none {cmp : α → α → Bool} {l : List α} :
    popMax cmp l = none ↔ l = [] := by
  cases l with
  | nil => simp [popMax]
  | cons a rest =>
    simp only [popMax]
    cases h : popMax cmp rest with
    | none => simp
    | some p => cases p with
      | mk m r => by_cases hc : cmp a m <;> simp [hc]

theorem popMax_perm {cmp : α → α → Bool} {l : List α} {m : α} {r : List α}
    (h : popMax cmp l = some (m, r)) : l.Perm (m :: r) := by
  induction l generalizing m r with
  | nil => simp [popMax] at h
  | cons a rest ih =>
    simp only [popMax] at h
    cases hr : popMax cmp rest with
    | none =>
      rw [hr] at h
      simp only [Option.some.injEq, Prod.mk.injEq] at h
      obtain ⟨rfl, rfl⟩ := h
      rw [popMax_eq_none.mp hr]
    | some p =>
      obtain ⟨m', r'⟩ := p
      rw [hr] at h
      by_cases hc : cmp a m'
      · simp only [hc, if_true, Option.some.injEq, Prod.mk.injEq] at h
        obtain ⟨rfl, rfl⟩ := h
        exact ((ih hr).cons a).trans (List.Perm.swap _ _ _)
      · simp only [hc, if_false, Option.some.injEq, Prod.mk.injEq] at h
        obtain ⟨rfl, rfl⟩ := h
        exact List.Perm.refl _

theorem popMax_mem {cmp : α → α → Bool} {l : List α} {m : α} {r : List α}
    (h : popMax cmp l = some (m, r)) : m ∈ l :=
  (popMax_perm h).symm.subset (List.mem_cons_self m r)

theorem popMax_length {cmp : α → α → Bool} {l : List α} {m : α} {r : List α}
    (h : popMax cmp l = some (m, r)) : r.length + 1 = l.length := by
  have := (popMax_perm h).length_eq
  simpa using this.symm

/-- A popped element is maximal: the comparator never ranks it below a
remaining element, provided the comparator is asymmetric and its negation
is transitive (both hold for strict weak orders such as the length
comparators). -/
theorem popMax_max {cmp : α → α → Bool}
    (hAS : ∀ a b, cmp a b = true → cmp b a = false)
    (hNT : ∀ a b c, cmp a b = false → cmp b c = false → cmp a c = false)
    {l : List α} {m : α} {r : List α}
    (h : popMax cmp l = some (m, r)) : ∀ x ∈ r, cmp m x = false := by
  induction l generalizing m r with
  | nil => simp [popMax] at h
  | cons a rest ih =>
    simp only [popMax] at h
    cases hr : popMax cmp rest with
    | none =>
      rw [hr] at h
      simp only [Option.some.injEq, Prod.mk.injEq] at h
      obtain ⟨rfl, rfl⟩ := h
      intro x hx
      simp at hx
    | some p =>
      obtain ⟨m', r'⟩ := p
      rw [hr] at h
      by_cases hc : cmp a m'
      · simp only [hc, if_true, Option.some.injEq, Prod.mk.injEq] at h
        obtain ⟨rfl, rfl⟩ := h
        intro x hx
        rcases List.mem_cons.mp hx with rfl | hx'
        · exact hAS _ _ hc
        · exact ih hr x hx'
      · simp only [hc, if_false, Option.some.injEq, Prod.mk.injEq] at h
        obtain ⟨rfl, rfl⟩ := h
        intro x hx
        have hxm : x = m' ∨ x ∈ r' := by
          have := (popMax_perm hr).subset hx
          simpa using this
        rcases hxm with rfl | hx'
        · exact Bool.eq_false_iff.mpr hc
        · exact hNT _ _ _ (Bool.eq_false_iff.mpr hc) (ih hr x hx')

/-- When the head is already maximal, it is popped first and the rest of
the queue is untouched. -/
theorem popMax_cons_of_max {cmp : α → α → Bool} {top : α} {rest : List α}
    (h : ∀ x ∈ rest, cmp top x = false) :
    popMax cmp (top :: rest) = some (top, rest) := by
  simp only [popMax]
  cases hr : popMax cmp rest with
  | none => rw [popMax_eq_none.mp hr]
  | some p =>
    obtain ⟨m, r⟩ := p
    have : cmp top m = false := h m (popMax_mem hr)
    simp [this]

/-! Order facts about the length-lexicographic comparators. -/

theorem lexCompare_asymm : ∀ a b : List Item,
    lexCompare itemCmp a b = true → lexCompare itemCmp b a = false := by
  intro a
  induction a with
  | nil =>
    intro b hb
    cases b with
    | nil => simp [lexCompare] at hb
    | cons y ys => simp [lexCompare]
  | cons x xs ih =>
    intro b hb
    cases b with
    | nil => simp [lexCompare] at hb
    | cons y ys =>
      simp only [lexCompare] at hb ⊢
      by_cases hxy : x.length < y.length
      · have h1 : itemCmp x y = true := by simp [itemCmp]; omega
        have h2 : itemCmp y x = false := by simp [itemCmp]; omega
        simp [h1, h2]
      · by_cases hyx : y.length < x.length
        · have h1 : itemCmp x y = false := by simp [itemCmp]; omega
          have h2 : itemCmp y x = true := by simp [itemCmp]; omega
          simp [h1, h2] at hb
        · have h1 : itemCmp x y = false := by simp [itemCmp]; omega
          have h2 : itemCmp y x = false := by simp [itemCmp]; omega
          simp only [h1, h2, Bool.false_eq_true, if_false] at hb ⊢
          exact ih ys hb

theorem lexCompare_negTrans : ∀ a b c : List Item,
    lexCompare itemCmp a b = false → lexCompare itemCmp b c = false →
    lexCompare itemCmp a c = false := by
  intro a
  induction a with
  | nil =>
    intro b c h1 h2
    cases b with
    | nil =>
      cases c with
      | nil => simp [lexCompare]
      | cons z zs => simp [lexCompare] at h2
    | cons y ys => simp [lexCompare] at h1
  | cons x xs ih =>
    intro b c h1 h2
    cases c with
    | nil => cases b <;> simp [lexCompare]
    | cons z zs =>
      cases b with
      | nil => simp [lexCompare] at h2
      | cons y ys =>
        simp only [lexCompare] at h1 h2 ⊢
        by_cases hxy : x.length < y.length
        · have e1 : itemCmp x y = true := by simp [itemCmp]; omega
          simp [e1] at h1
        · by_cases hyz : y.length < z.length
          · have e2 : itemCmp y z = true := by simp [itemCmp]; omega
            simp [e2] at h2
          · have exz : itemCmp x z = false := by simp [itemCmp]; omega
            by_cases hzx : z.length < x.length
            · have ezx : itemCmp z x = true := by simp [itemCmp]; omega
              simp [exz, ezx]
            · have hyx : ¬ y.length < x.length := by omega
              have hzy : ¬ z.length < y.length := by omega
              have exy : itemCmp x y = false := by simp [itemCmp]; omega
              have eyx : itemCmp y x = false := by simp [itemCmp]; omega
              have eyz : itemCmp y z = false := by simp [itemCmp]; omega
              have ezy : itemCmp z y = false := by simp [itemCmp]; omega
              have ezx : itemCmp z x = false := by simp [itemCmp]; omega
              simp only [exy, eyx, Bool.false_eq_true, if_false] at h1
              simp only [eyz, ezy, Bool.false_eq_true, if_false] at h2
              simp only [exz, ezx, Bool.false_eq_true, if_false]
              exact ih ys zs h1 h2

theorem cmpSrc_asymm : ∀ a b : Sample, cmpSrc a b = true → cmpSrc b a = false :=
  fun a b h => lexCompare_asymm a b h

theorem cmpSrc_negTrans : ∀ a b c : Sample,
    cmpSrc a b = false → cmpSrc b c = false → cmpSrc a c = false :=
  fun a b c h1 h2 => lexCompare_negTrans a b c h1 h2

/-! Lemmas about draining and shuffling. -/

theorem drainAux_subset {cmp : α → α → Bool} :
    ∀ (fuel : Nat) (l : List α), ∀ x ∈ drainAux cmp fuel l, x ∈ l := by
  intro fuel
  induction fuel with
  | zero => intro l x hx; simp [drainAux] at hx
  | succ n ih =>
    intro l x hx
    simp only [drainAux] at hx
    cases h : popMax cmp l with
    | none => rw [h] at hx; simp at hx
    | some p =>
      obtain ⟨m, r⟩ := p
      rw [h] at hx
      rcases List.mem_cons.mp hx with rfl | hx'
      · exact popMax_mem h
      · exact (popMax_perm h).symm.subset (List.mem_cons_of_mem m (ih r x hx'))

/-- Drained pop order never ranks a later element above an earlier one. -/
theorem drainAux_pairwise {cmp : α → α → Bool}
    (hAS : ∀ a b, cmp a b = true → cmp b a = false)
    (hNT : ∀ a b c, cmp a b = false → cmp b c = false → cmp a c = false) :
    ∀ (fuel : Nat) (l : List α),
    List.Pairwise (fun a b => cmp a b = false) (drainAux cmp fuel l) := by
  intro fuel
  induction fuel with
  | zero => intro l; simp [drainAux]
  | succ n ih =>
    intro l
    simp only [drainAux]
    cases h : popMax cmp l with
    | none => simp
    | some p =>
      obtain ⟨m, r⟩ := p
      refine List.Pairwise.cons ?_ (ih r)
      intro x hx
      exact popMax_max hAS hNT h x (drainAux_subset n r x hx)

theorem extractAt_perm {n : Nat} {l : List α} {x : α} {r : List α}
    (h : extractAt n l = some (x, r)) : l.Perm (x :: r) := by
  induction l generalizing n x r with
  | nil => simp [extractAt] at h
  | cons a xs ih =>
    cases n with
    | zero =>
      simp only [extractAt, Option.some.injEq, Prod.mk.injEq] at h
      obtain ⟨rfl, rfl⟩ := h
      exact List.Perm.refl _
    | succ n =>
      simp only [extractAt] at h
      cases he : extractAt n xs with
      | none => rw [he] at h; simp at h
      | some p =>
        obtain ⟨y, ys⟩ := p
        rw [he] at h
        simp only [Option.some.injEq, Prod.mk.injEq] at h
        obtain ⟨rfl, rfl⟩ := h
        exact ((ih he).cons a).trans (List.Perm.swap _ _ _)

theorem shuffleAux_perm : ∀ (fuel s : Nat) (l : List α),
    (shuffleAux fuel s l).1.Perm l := by
  intro fuel
  induction fuel with
  | zero => intro s l; simp [shuffleAux]
  | succ n ih =>
    intro s l
    simp only [shuffleAux]
    cases h : extractAt (s % l.length) l with
    | none => simp
    | some p =>
      obtain ⟨x, rest⟩ := p
      exact ((ih (lcgNext s) rest).cons x).trans (extractAt_perm h).symm

theorem shuffleRng_perm (s : Nat) (l : List α) : (shuffleRng s l).1.Perm l :=
  shuffleAux_perm l.length s l

/-! Conservation through the batch cutter. -/

theorem perm_emit {bv rest : List α} (top : α) :
    ((bv ++ [top]) ++ rest).Perm ((top :: rest) ++ bv) := by
  have h1 : (bv ++ [top]) ++ rest = bv ++ (top :: rest) := by
    rw [List.append_assoc]
    rfl
  rw [h1]
  exact List.perm_append_comm

theorem perm_keep {bv rest : List α} (top : α) :
    (rest ++ (bv ++ [top])).Perm ((top :: rest) ++ bv) :=
  List.perm_append_comm.trans (perm_emit top)

/-- Every sample of the window (and of the partially built batch) lands in
exactly one emitted batch, provided the fuel covers the loop and, under
dynamic batching, the stats oracle never returns 0 (a 0 answer makes the
C++ loop emit empty batches forever). -/
theorem cutBatches_flatten_perm {fsz : α → List Nat} {cmp : α → α → Bool}
    {pol : Policy} {stats : List Nat → Nat} {miniB mbW sets : Nat}
    (hstats : pol = Policy.dynamicFit → ∀ l, 1 ≤ stats l) :
    ∀ (fuel : Nat) (window bv : List α) (cw : Nat) (lengths : List Nat),
    2 * window.length + bv.length + 1 ≤ fuel →
    ((cutBatches fsz cmp pol stats miniB mbW sets fuel window bv cw
      lengths).flatten).Perm (window ++ bv) := by
  intro fuel
  induction fuel with
  | zero => intro window bv cw lengths hf; omega
  | succ n ih =>
    intro window bv cw lengths hf
    simp only [cutBatches]
    cases hpop : popMax cmp window with
    | none =>
      have hw : window = [] := popMax_eq_none.mp hpop
      subst hw
      cases bv with
      | nil => simp
      | cons b bs => simp
    | some p =>
      obtain ⟨top, rest⟩ := p
      have hperm : window.Perm (top :: rest) := popMax_perm hpop
      have hlen : rest.length + 1 = window.length := popMax_length hpop
      have hgoal : ∀ X : List α, X.Perm ((top :: rest) ++ bv) →
          X.Perm (window ++ bv) :=
        fun X h => h.trans (hperm.append_right bv).symm
      cases pol with
      | dynamicFit =>
        simp only
        by_cases hlt : stats (updLengths lengths (fsz top)) < (bv ++ [top]).length
        · have hle : stats (updLengths lengths (fsz top)) ≤ (bv ++ [top]).length :=
            Nat.le_of_lt hlt
          have hbv : 1 ≤ bv.length := by
            have h1 : 1 ≤ stats (updLengths lengths (fsz top)) := hstats rfl _
            have h2 : (bv ++ [top]).length = bv.length + 1 := by simp
            omega
          simp only [if_pos hlt, if_pos hle, List.dropLast_concat, List.flatten_cons]
          refine hgoal _ ?_
          have hrec : (cutBatches fsz cmp Policy.dynamicFit stats miniB mbW sets n
              (top :: rest) [] 0 (List.replicate sets 0)).flatten.Perm (top :: rest) := by
            have h3 := ih (top :: rest) [] 0 (List.replicate sets 0)
              (by simp only [List.length_cons, List.length_nil]; omega)
            simpa using h3
          exact (List.Perm.append_left bv hrec).trans List.perm_append_comm
        · by_cases hle : stats (updLengths lengths (fsz top)) ≤ (bv ++ [top]).length
          · simp only [if_neg hlt, if_pos hle, List.flatten_cons]
            refine hgoal _ ?_
            have hrec : (cutBatches fsz cmp Policy.dynamicFit stats miniB mbW sets n
                rest [] 0 (List.replicate sets 0)).flatten.Perm rest := by
              have h3 := ih rest [] 0 (List.replicate sets 0) (by simp; omega)
              simpa using h3
            exact (List.Perm.append_left _ hrec).trans (perm_emit top)
          · simp only [if_neg hlt, if_neg hle]
            refine hgoal _ ?_
            have h3 := ih rest (bv ++ [top]) cw (updLengths lengths (fsz top))
              (by simp only [List.length_append, List.length_cons, List.length_nil]; omega)
            exact h3.trans (perm_keep top)
      | wordBudget =>
        simp only
        by_cases hcw : mbW < cw + (fsz top).getD 0 0
        · simp only [if_pos hcw, List.flatten_cons]
          refine hgoal _ ?_
          have hrec : (cutBatches fsz cmp Policy.wordBudget stats miniB mbW sets n
              rest [] 0 (List.replicate sets 0)).flatten.Perm rest := by
            have h3 := ih rest [] 0 (List.replicate sets 0) (by simp; omega)
            simpa using h3
          exact (List.Perm.append_left _ hrec).trans (perm_emit top)
        · simp only [if_neg hcw]
          refine hgoal _ ?_
          have h3 := ih rest (bv ++ [top]) (cw + (fsz top).getD 0 0) lengths
            (by simp only [List.length_append, List.length_cons, List.length_nil]; omega)
          exact h3.trans (perm_keep top)
      | fixedCount =>
        simp only
        by_cases hfc : (bv ++ [top]).length = miniB
        · simp only [if_pos hfc, List.flatten_cons]
          refine hgoal _ ?_
          have hrec : (cutBatches fsz cmp Policy.fixedCount stats miniB mbW sets n
              rest [] 0 (List.replicate sets 0)).flatten.Perm rest := by
            have h3 := ih rest [] 0 (List.replicate sets 0) (by simp; omega)
            simpa using h3
          exact (List.Perm.append_left _ hrec).trans (perm_emit top)
        · simp only [if_neg hfc]
          refine hgoal _ ?_
          have h3 := ih rest (bv ++ [top]) cw lengths
            (by simp only [List.length_append, List.length_cons, List.length_nil]; omega)
          exact h3.trans (perm_keep top)

/-! Specification of the window-reading loop. -/

theorem readLoop_spec (maxS : Nat) :
    ∀ (cur acc : List Sample), acc.length < maxS →
    readLoop maxS acc cur =
      (acc ++ cur.take (maxS - acc.length),
       if cur.length < maxS - acc.length then [] else cur.drop (maxS - acc.length - 1)) := by
  intro cur
  induction cur with
  | nil =>
    intro acc hacc
    have h0 : 0 < maxS - acc.length := by omega
    simp only [readLoop, List.take_nil, List.append_nil, List.length_nil, if_pos h0]
  | cons s cur ih =>
    intro acc hacc
    simp only [readLoop, if_pos hacc]
    by_cases hfull : acc.length + 1 = maxS
    · have ht : maxS - acc.length = 1 := by omega
      rw [if_pos hfull, ht]
      have hc : ¬ (s :: cur).length < 1 := by simp
      rw [if_neg hc]
      simp
    · rw [if_neg hfull]
      have hacc1 : (acc ++ [s]).length < maxS := by simp; omega
      rw [ih (acc ++ [s]) hacc1]
      obtain ⟨k, hk⟩ : ∃ k, maxS - acc.length = k + 2 := ⟨maxS - acc.length - 2, by omega⟩
      have hk1 : maxS - (acc ++ [s]).length = k + 1 := by simp; omega
      rw [hk1, hk]
      simp only [Prod.mk.injEq]
      refine ⟨?_, ?_⟩
      · rw [List.take_succ_cons, List.append_assoc]
        rfl
      · by_cases hclc : cur.length < k + 1
        · rw [if_pos hclc, if_pos (by simp; omega : (s :: cur).length < k + 2)]
        · rw [if_neg hclc, if_neg (by simp; omega : ¬ (s :: cur).length < k + 2)]
          simp [List.drop_succ_cons]

theorem fetchRead_spec (maxS : Nat) (hM : 1 ≤ maxS) (data : List Sample) (r : Reader) :
    (fetchRead maxS data r).1 = (effRest data r).take maxS ∧
    effRest data (fetchRead maxS data r).2 = (effRest data r).drop maxS ∧
    (fetchRead maxS data r).2.newlyPrepared = false := by
  have hrl := readLoop_spec maxS (if r.newlyPrepared then data else r.rest.tail) []
    (by simpa using hM)
  simp only [List.length_nil, Nat.sub_zero, List.nil_append] at hrl
  have hfr : fetchRead maxS data r =
      ((if r.newlyPrepared then data else r.rest.tail).take maxS,
       Reader.mk (if (if r.newlyPrepared then data else r.rest.tail).length < maxS then []
         else (if r.newlyPrepared then data else r.rest.tail).drop (maxS - 1)) false) := by
    simp only [fetchRead, hrl]
  have he : effRest data r = (if r.newlyPrepared then data else r.rest.tail) := rfl
  refine ⟨?_, ?_, ?_⟩
  · rw [hfr, he]
  · rw [hfr, he]
    simp only [effRest, if_neg (by simp : ¬ (false = true))]
    by_cases hsh : (if r.newlyPrepared then data else r.rest.tail).length < maxS
    · rw [if_pos hsh]
      have hnil : (if r.newlyPrepared then data else r.rest.tail).drop maxS = [] :=
        List.drop_eq_nil_of_le (by omega)
      simp [hnil]
    · rw [if_neg hsh]
      rw [List.tail_drop]
      have harith : maxS - 1 + 1 = maxS := by omega
      rw [harith]
  · rw [hfr]

theorem cut_untag_perm (cmp : (Nat × Sample) → (Nat × Sample) → Bool)
    (pol : Policy) (statsF : List Nat → Nat) (miniB mbW sets : Nat)
    (w : List Sample) (hstats : pol = Policy.dynamicFit → ∀ l, 1 ≤ statsF l) :
    (((cutBatches fszTagged cmp pol statsF miniB mbW sets (2 * w.enum.length + 1)
      w.enum [] 0 (List.replicate sets 0)).map
        (fun b => b.map Prod.snd)).flatten).Perm w := by
  have hcut := @cutBatches_flatten_perm (Nat × Sample) fszTagged cmp pol statsF
    miniB mbW sets hstats
    (2 * w.enum.length + 1) w.enum [] 0 (List.replicate sets 0) (by simp)
  have hcut1 : ((cutBatches fszTagged cmp pol statsF miniB mbW sets
      (2 * w.enum.length + 1) w.enum [] 0
      (List.replicate sets 0)).flatten).Perm w.enum := by simpa using hcut
  have hmap : (((cutBatches fszTagged cmp pol statsF miniB mbW sets
      (2 * w.enum.length + 1) w.enum [] 0 (List.replicate sets 0)).map
        (fun b => b.map Prod.snd)).flatten) =
      ((cutBatches fszTagged cmp pol statsF miniB mbW sets
      (2 * w.enum.length + 1) w.enum [] 0
      (List.replicate sets 0)).flatten).map Prod.snd := by
    rw [← List.map_flatten]
  rw [hmap]
  have := hcut1.map Prod.snd
  rwa [List.enum_map_snd] at this

theorem fetchCore_conservation (cmp : (Nat × Sample) → (Nat × Sample) → Bool)
    (pol : Policy) (statsF : List Nat → Nat) (cfg : Config) (sh : Bool)
    (rng : Nat) (data : List Sample) (r : Reader)
    (hM : 1 ≤ maxSize cfg) (hstats : pol = Policy.dynamicFit → ∀ l, 1 ≤ statsF l) :
    ((fetchCore cmp pol statsF cfg sh rng data r).1.flatten).Perm
      ((effRest data r).take (maxSize cfg)) ∧
    (fetchCore cmp pol statsF cfg sh rng data r).2.1 =
      (fetchRead (maxSize cfg) data r).2 := by
  have hw := (fetchRead_spec (maxSize cfg) hM data r).1
  constructor
  · rw [← hw]
    simp only [fetchCore]
    by_cases hsh : sh
    · simp only [if_pos hsh]
      refine List.Perm.trans (List.Perm.flatten (shuffleRng_perm rng _)) ?_
      exact cut_untag_perm cmp pol statsF cfg.miniBatch cfg.mbWords _ _ hstats
    · simp only [if_neg hsh]
      exact cut_untag_perm cmp pol statsF cfg.miniBatch cfg.mbWords _ _ hstats
  · simp only [fetchCore]
    by_cases hsh : sh
    · simp only [if_pos hsh]
    · simp only [if_neg hsh]

theorem fetchCore_empty_of (cmp : (Nat × Sample) → (Nat × Sample) → Bool)
    (pol : Policy) (statsF : List Nat → Nat) (cfg : Config) (sh : Bool)
    (rng : Nat) (data : List Sample) (r : Reader)
    (h : effRest data r = []) :
    (fetchCore cmp pol statsF cfg sh rng data r).1 = [] := by
  have hcur : (if r.newlyPrepared then data else r.rest.tail) = [] := h
  by_cases hsh : sh <;>
    simp [fetchCore, fetchRead, hcur, readLoop, cutBatches, popMax,
      shuffleRng, shuffleAux, hsh]

theorem epochFetchList_perm (cfg : Config) (stats : Option (List Nat → Nat))
    (base esz : Nat) (sh : Bool) (data : List Sample)
    (hM : 1 ≤ maxSize cfg)
    (hstats : policyOf cfg stats.isSome = Policy.dynamicFit →
      ∀ l, 1 ≤ (stats.getD (fun _ => 0)) l) :
    ∀ (fuel rng : Nat) (r : Reader), (effRest data r).length + 1 ≤ fuel →
    (((epochFetchList cfg stats base esz sh data fuel rng r).flatten).flatten).Perm
      (effRest data r) := by
  intro fuel
  induction fuel with
  | zero => intro rng r hf; omega
  | succ n ih =>
    intro rng r hf
    simp only [epochFetchList, fetchBatches]
    have hcons := fetchCore_conservation (cmpOf cfg.maxiBatchSort base esz)
      (policyOf cfg stats.isSome) (stats.getD (fun _ => 0)) cfg sh rng data r hM hstats
    set res := fetchCore (cmpOf cfg.maxiBatchSort base esz)
      (policyOf cfg stats.isSome) (stats.getD (fun _ => 0)) cfg sh rng data r with hres
    by_cases hbe : res.1.isEmpty
    · rw [if_pos hbe]
      have h1 : res.1 = [] := by simpa [List.isEmpty_iff] using hbe
      have h2 : ((effRest data r).take (maxSize cfg)).Perm [] := by
        rw [h1] at hcons
        exact hcons.1.symm.trans (by simp)
      have h3 : (effRest data r).take (maxSize cfg) = [] := h2.eq_nil
      have h4 : effRest data r = [] := by
        rcases List.take_eq_nil_iff.mp h3 with h | h
        · omega
        · exact h
      rw [h4]
      simp
    · rw [if_neg hbe]
      have hne : effRest data r ≠ [] := by
        intro hnil
        exact hbe (by simp [hres, fetchCore_empty_of _ _ _ _ _ _ _ _ hnil])
      have h2 : effRest data (res.2.1) = (effRest data r).drop (maxSize cfg) := by
        rw [hcons.2]
        exact (fetchRead_spec (maxSize cfg) hM data r).2.1
      have hIH := ih res.2.2 res.2.1 (by
        rw [h2]
        have hlen : ((effRest data r).drop (maxSize cfg)).length =
            (effRest data r).length - maxSize cfg := by simp
        have hpos : 1 ≤ (effRest data r).length :=
          List.length_pos.mpr hne
        omega)
      rw [h2] at hIH
      simp only [List.flatten_cons, List.flatten_append]
      refine (hcons.1.append hIH).trans ?_
      rw [List.take_append_drop]

/-! The word-budget emission invariant. -/

/-- Size of field 0 of a sample, `batchVector.back()[0].size()`. -/
def fieldZero (fsz : α → List Nat) (x : α) : Nat := (fsz x).getD 0 0

/-- Under the word-budget policy, every emitted batch other than the
trailing one exceeds the budget, and dropping its final (triggering)
sample brings the field-0 sum back within the budget.  The running count
`cw` must equal the field-0 sum of the partial batch and be within the
budget, which holds at loop entry (`bv = []`, `cw = 0`). -/
theorem cutWords_budget {fsz : α → List Nat} {cmp : α → α → Bool}
    {stats : List Nat → Nat} {miniB mbW sets : Nat} :
    ∀ (fuel : Nat) (window bv : List α) (cw : Nat) (lengths : List Nat),
    cw = (bv.map (fieldZero fsz)).sum → cw ≤ mbW →
    ∀ b ∈ (cutBatches fsz cmp Policy.wordBudget stats miniB mbW sets fuel
      window bv cw lengths).dropLast,
      mbW < (b.map (fieldZero fsz)).sum ∧
      ((b.dropLast).map (fieldZero fsz)).sum ≤ mbW := by
  intro fuel
  induction fuel with
  | zero => intro window bv cw lengths hcw hle b hb; simp [cutBatches] at hb
  | succ n ih =>
    intro window bv cw lengths hcw hle b hb
    simp only [cutBatches] at hb
    cases hpop : popMax cmp window with
    | none =>
      rw [hpop] at hb
      by_cases hbv : bv.isEmpty
      · simp [hbv] at hb
      · simp [hbv] at hb
    | some p =>
      obtain ⟨top, rest⟩ := p
      rw [hpop] at hb
      simp only at hb
      by_cases hem : mbW < cw + (fsz top).getD 0 0
      · rw [if_pos hem] at hb
        set L := cutBatches fsz cmp Policy.wordBudget stats miniB mbW sets n
          rest [] 0 (List.replicate sets 0) with hL
        rcases List.eq_nil_or_concat L with hnil | _
        · rw [hnil] at hb
          simp at hb
        · by_cases hLnil : L = []
          · rw [hLnil] at hb
            simp at hb
          · rw [List.dropLast_cons_of_ne_nil hLnil] at hb
            rcases List.mem_cons.mp hb with rfl | hb'
            · constructor
              · have hsum : ((bv ++ [top]).map (fieldZero fsz)).sum =
                    cw + (fsz top).getD 0 0 := by
                  simp [hcw, fieldZero]
                rw [hsum]
                exact hem
              · rw [List.dropLast_concat]
                omega
            · exact ih rest [] 0 (List.replicate sets 0) (by simp) (by omega) b hb'
      · rw [if_neg hem] at hb
        refine ih rest (bv ++ [top]) (cw + (fsz top).getD 0 0) lengths ?_ (by omega) b hb
        simp [hcw, fieldZero]

/-- C3: under the word-budget policy the cutter accumulates field-0 sizes,
emits exactly when the running total strictly exceeds the budget (the
triggering sample included, the counter and batch reset afterwards), and
consequently every emitted batch except possibly the trailing one has
field-0 sum `> mbW` while dropping its last sample brings the sum to
`≤ mbW`. -/
theorem C3_word_budget {α : Type} (fsz : α → List Nat) (cmp : α → α → Bool)
    (stats : List Nat → Nat) (miniB mbW sets fuel : Nat)
    (window bv : List α) (cw : Nat) (lengths : List Nat)
    (top : α) (rest : List α) :
    (popMax cmp window = some (top, rest) → mbW < cw + fieldZero fsz top →
      cutBatches fsz cmp Policy.wordBudget stats miniB mbW sets (fuel + 1)
        window bv cw lengths =
      (bv ++ [top]) :: cutBatches fsz cmp Policy.wordBudget stats miniB mbW sets
        fuel rest [] 0 (List.replicate sets 0)) ∧
    (popMax cmp window = some (top, rest) → ¬ mbW < cw + fieldZero fsz top →
      cutBatches fsz cmp Policy.wordBudget stats miniB mbW sets (fuel + 1)
        window bv cw lengths =
      cutBatches fsz cmp Policy.wordBudget stats miniB mbW sets
        fuel rest (bv ++ [top]) (cw + fieldZero fsz top) lengths) ∧
    (∀ b ∈ (cutBatches fsz cmp Policy.wordBudget stats miniB mbW sets fuel
      window [] 0 lengths).dropLast,
      mbW < (b.map (fieldZero fsz)).sum ∧
      ((b.dropLast).map (fieldZero fsz)).sum ≤ mbW) := by
  refine ⟨?_, ?_, ?_⟩
  · intro hpop hem
    simp only [cutBatches, hpop, fieldZero] at hem ⊢
    rw [if_pos hem]
  · intro hpop hem
    simp only [cutBatches, hpop, fieldZero] at hem ⊢
    rw [if_neg hem]
  · intro b hb
    exact cutWords_budget fuel window [] 0 lengths (by simp) (by omega) b hb

/-- Witness for C3 at the spec's scenario data (field-0 lengths
3,7,1,5,2,8,4,6,9,10; budget 10): the first emitted batch sums to 19 > 10
and dropping its trigger leaves 10 ≤ 10; the one-step equations fire on
the first pop. -/
theorem C3_word_budget_witness :
    (popMax cmpSrc ([3, 7].map mkSample) = some (mkSample 7, [mkSample 3]) →
      10 < 0 + fieldZero fieldSizes (mkSample 7) →
      cutBatches fieldSizes cmpSrc Policy.wordBudget (fun _ => 0) 3 10 1 3
        ([3, 7].map mkSample) [] 0 [0] =
      ([] ++ [mkSample 7]) :: cutBatches fieldSizes cmpSrc Policy.wordBudget
        (fun _ => 0) 3 10 1 2 [mkSample 3] [] 0 (List.replicate 1 0)) ∧
    ([mkSample 10, mkSample 9] ∈ (cutBatches fieldSizes cmpSrc Policy.wordBudget
      (fun _ => 0) 3 10 1 11 ([3, 7, 1, 5, 2, 8, 4, 6, 9, 10].map mkSample) [] 0
      [0]).dropLast ∧
      10 < ([mkSample 10, mkSample 9].map (fieldZero fieldSizes)).sum ∧
      (([mkSample 10, mkSample 9].dropLast).map (fieldZero fieldSizes)).sum ≤ 10) :=
  ⟨(C3_word_budget fieldSizes cmpSrc (fun _ => 0) 3 10 1 2 ([3, 7].map mkSample)
      [] 0 [0] (mkSample 7) [mkSample 3]).1,
   by decide,
   ((C3_word_budget fieldSizes cmpSrc (fun _ => 0) 3 10 1 11
      ([3, 7, 1, 5, 2, 8, 4, 6, 9, 10].map mkSample) [] 0 [0] (mkSample 7)
      [mkSample 3]).2.2 [mkSample 10, mkSample 9] (by decide)).1,
   ((C3_word_budget fieldSizes cmpSrc (fun _ => 0) 3 10 1 11
      ([3, 7, 1, 5, 2, 8, 4, 6, 9, 10].map mkSample) [] 0 [0] (mkSample 7)
      [mkSample 3]).2.2 [mkSample 10, mkSample 9] (by decide)).2⟩

/-- C4: under the dynamic-fit policy, when the freshly pushed sample makes
`batchVector` exceed the oracle's size, it is popped back into the same
window before the batch is emitted (the emitted batch is the vector
without it), and — being still maximal under the ordering — it is the
first sample popped into the next batch. -/
theorem C4_dynamic_pushback {α : Type} (fsz : α → List Nat) (cmp : α → α → Bool)
    (stats : List Nat → Nat) (miniB mbW sets fuel : Nat)
    (window bv : List α) (cw : Nat) (lengths : List Nat)
    (top : α) (rest : List α)
    (hpop : popMax cmp window = some (top, rest))
    (hgt : stats (updLengths lengths (fsz top)) < (bv ++ [top]).length) :
    cutBatches fsz cmp Policy.dynamicFit stats miniB mbW sets (fuel + 1)
      window bv cw lengths =
    bv :: cutBatches fsz cmp Policy.dynamicFit stats miniB mbW sets fuel
      (top :: rest) [] 0 (List.replicate sets 0) ∧
    top ∈ (top :: rest) ∧
    ((∀ x ∈ rest, cmp top x = false) →
      popMax cmp (top :: rest) = some (top, rest)) := by
  refine ⟨?_, List.mem_cons_self top rest, fun h => popMax_cons_of_max h⟩
  simp only [cutBatches, hpop]
  rw [if_pos hgt, if_pos (Nat.le_of_lt hgt), if_pos hgt, List.dropLast_concat]

/-- Sample with field sizes [2,1], used in the C4 witness. -/
def sampA : Sample := [[0, 0], [0]]

/-- Sample with field sizes [1,5], used in the C4 witness. -/
def sampB : Sample := [[0], [0, 0, 0, 0, 0]]

/-- Oracle for the C4 witness: admits 3 samples while the per-field
maxima sum to at most 3, and only 1 sample beyond that. -/
def statsC4 (l : List Nat) : Nat := if l.sum <= 3 then 3 else 1

/-- Witness for C4: pushing `sampB` (sizes [1,5]) onto `[sampA]` bumps the
maxima to [2,5], shrinking the admissible batch size to 1 < 2, so `sampB`
is pushed back, `[sampA]` is emitted, and `sampB` starts the next batch. -/
theorem C4_dynamic_pushback_witness :
    cutBatches fieldSizes cmpSrc Policy.dynamicFit statsC4 3 0 2 2
      [sampB] [sampA] 0 [2, 1] =
    [sampA] :: cutBatches fieldSizes cmpSrc Policy.dynamicFit statsC4 3 0 2 1
      (sampB :: []) [] 0 (List.replicate 2 0) ∧
    popMax cmpSrc (sampB :: []) = some (sampB, []) :=
  ⟨(C4_dynamic_pushback fieldSizes cmpSrc statsC4 3 0 2 1 [sampB] [sampA] 0
      [2, 1] sampB [] (by decide) (by decide)).1,
   (C4_dynamic_pushback fieldSizes cmpSrc statsC4 3 0 2 1 [sampB] [sampA] 0
      [2, 1] sampB [] (by decide) (by decide)).2.2 (by decide)⟩

/-- Configuration of spec scenario 1: mini-batch 3, maxi-batch 2,
fixed-count policy, `maxi-batch-sort = src`. -/
def cfgC2 : Config := ⟨3, 2, 0, false, some "src", false⟩

/-- Dataset of spec scenario 1: ten single-field samples of field-0
lengths 3,7,1,5,2,8,4,6,9,10. -/
def dataC2 : List Sample := [3, 7, 1, 5, 2, 8, 4, 6, 9, 10].map mkSample

/-- Generator state right after `prepare(false)` on `dataC2` trimmed to a
single sample: local buffer empty, initial prefetch scheduled. -/
def genC1 : Gen := ⟨[mkSample 1], ⟨[mkSample 1], true⟩, 0, [], true, false, false, false⟩

/-- State of `genC1` after its only batch was served: exhausted reader,
prefetch of the empty end-of-epoch window still scheduled. -/
def genC1a : Gen := ⟨[mkSample 1], ⟨[], false⟩, 0, [], true, false, false, false⟩

/-- State after the end-of-epoch `next()`: future consumed (`valid()`
false), nothing rescheduled. -/
def genC1b : Gen := ⟨[mkSample 1], ⟨[], false⟩, 0, [], false, false, false, false⟩

/-- C1 (counterexample): after the last batch, the first `next()` does
return null — but the second consecutive `next()` does not return null:
it finds neither buffered batches nor a valid future and hits
`ABORT_IF(!futureBufferedBatches_.valid())` (modelled by `none`), so
"two consecutive `next()` calls both return null without aborting" fails
on this one-sample epoch. -/
theorem C1_counterexample :
    next cfgC2 none 0 1 genC1 = some (some [mkSample 1], genC1a) ∧
    next cfgC2 none 0 1 genC1a = some (none, genC1b) ∧
    next cfgC2 none 0 1 genC1b = none :=
  ⟨by decide, by decide, by decide⟩

/-- After `next()` returns null, the buffer is empty and the future has
been consumed without rescheduling. -/
theorem next_null_state (cfg : Config) (stats : Option (List Nat → Nat))
    (base esz : Nat) (g g' : Gen)
    (h : next cfg stats base esz g = some (none, g')) :
    g'.buffered = [] ∧ g'.futValid = false := by
  unfold next at h
  cases hb : g.buffered with
  | cons b rest => rw [hb] at h; simp at h
  | nil =>
    rw [hb] at h
    by_cases hf : g.futValid
    · cases hres : (fetchBatches cfg stats base esz g.shuffleFlag g.rng
          g.data g.reader).1 with
      | nil =>
        simp only [if_pos hf, hres, Option.some.injEq, Prod.mk.injEq] at h
        rw [← h.2]
        exact ⟨rfl, rfl⟩
      | cons b bs =>
        simp only [if_pos hf, hres] at h
        simp at h
    · rw [if_neg hf] at h
      exact absurd h (by simp)

/-- C1 (amended): a prefetch returning an empty window is signaled by one
null `next()`; after that null return the future is consumed and not
rescheduled, so a further `next()` without an intervening `prepare` is
the fatal no-work-scheduled protocol violation (`none` in the model)
rather than a second null. -/
theorem C1_end_of_epoch (cfg : Config) (stats : Option (List Nat → Nat))
    (base esz : Nat) (g g' : Gen)
    (h : next cfg stats base esz g = some (none, g')) :
    g'.buffered = [] ∧ g'.futValid = false ∧
    next cfg stats base esz g' = none := by
  have hg' : g'.buffered = [] ∧ g'.futValid = false :=
    next_null_state cfg stats base esz g g' h
  refine ⟨hg'.1, hg'.2, ?_⟩
  unfold next
  rw [hg'.1, hg'.2]
  simp

/-- Witness for C1's amended theorem at the one-sample epoch. -/
theorem C1_end_of_epoch_witness :
    next cfgC2 none 0 1 genC1a = some (none, genC1b) ∧
    genC1b.buffered = [] ∧ genC1b.futValid = false ∧
    next cfgC2 none 0 1 genC1b = none :=
  ⟨by decide, C1_end_of_epoch cfgC2 none 0 1 genC1a genC1b (by decide)⟩

/-- C2 (counterexample): with mini-batch 3, maxi-batch 2, sort `src`, no
shuffle, on field-0 lengths [3,7,1,5,2,8,4,6,9,10] the epoch's emitted
batch sequence is not [(1,2,3),(4,5,6),(7,8,9),(10)]: the window holds at
most `mini-batch x maxi-batch = 6` samples (not all ten), and the
priority queue with a less-than comparator drains longest-first, not
ascending. -/
theorem C2_counterexample :
    batchLens (epochBatches cfgC2 none 0 1 false 0 dataC2) ≠
      [[1, 2, 3], [4, 5, 6], [7, 8, 9], [10]] := by decide

/-- C2 (amended): the window capacity is `mini-batch x maxi-batch = 6`
samples; the first fetched window holds the first six samples (lengths
3,7,1,5,2,8), the queue drains them in descending length order
8,7,5,3,2,1, and the epoch's emitted batch sequence is
[(8,7,5),(3,2,1)] from the first window followed by [(10,9,6),(4)] from
the second. -/
theorem C2_scenario :
    maxSize cfgC2 = 6 ∧
    (fetchRead (maxSize cfgC2) dataC2 ⟨dataC2, true⟩).1 =
      [3, 7, 1, 5, 2, 8].map mkSample ∧
    drainQ cmpSrc (fetchRead (maxSize cfgC2) dataC2 ⟨dataC2, true⟩).1 =
      [8, 7, 5, 3, 2, 1].map mkSample ∧
    batchLens (epochBatches cfgC2 none 0 1 false 0 dataC2) =
      [[8, 7, 5], [3, 2, 1], [10, 9, 6], [4]] :=
  ⟨by decide, by decide, by decide, by decide⟩

/-- C5: conservation — for every fetched window the emitted batches
contain exactly the samples read into that window (so the `size()` sum
equals the read count), and over a whole epoch the batches partition the
dataset, residual samples included (they form the trailing batch).
Requires a positive window capacity and, under dynamic batching, a stats
oracle that never answers 0. -/
theorem C5_conservation (cfg : Config) (stats : Option (List Nat → Nat))
    (base esz : Nat) (sh : Bool) (data : List Sample)
    (h1 : 1 ≤ cfg.miniBatch) (h2 : 1 ≤ cfg.maxiBatch)
    (hstats : policyOf cfg stats.isSome = Policy.dynamicFit →
      ∀ l, 1 ≤ (stats.getD (fun _ => 0)) l) :
    (∀ (rng : Nat) (r : Reader),
      ((fetchBatches cfg stats base esz sh rng data r).1.flatten).Perm
        ((fetchRead (maxSize cfg) data r).1) ∧
      ((fetchBatches cfg stats base esz sh rng data r).1.map List.length).sum =
        (fetchRead (maxSize cfg) data r).1.length) ∧
    (∀ rng : Nat,
      ((epochBatches cfg stats base esz sh rng data).flatten).Perm data ∧
      ((epochBatches cfg stats base esz sh rng data).map List.length).sum =
        data.length) := by
  have hM : 1 ≤ maxSize cfg := by
    have := Nat.mul_le_mul h1 h2
    simpa [maxSize] using this
  constructor
  · intro rng r
    have hcons := fetchCore_conservation (cmpOf cfg.maxiBatchSort base esz)
      (policyOf cfg stats.isSome) (stats.getD (fun _ => 0)) cfg sh rng data r hM hstats
    have hw := (fetchRead_spec (maxSize cfg) hM data r).1
    have hperm : ((fetchBatches cfg stats base esz sh rng data r).1.flatten).Perm
        ((fetchRead (maxSize cfg) data r).1) := by
      rw [hw]
      exact hcons.1
    refine ⟨hperm, ?_⟩
    have := hperm.length_eq
    rwa [List.length_flatten] at this
  · intro rng
    have hperm : ((epochBatches cfg stats base esz sh rng data).flatten).Perm data := by
      have h3 := epochFetchList_perm cfg stats base esz sh data hM hstats
        (data.length + 1) rng ⟨data, true⟩ (by simp [effRest])
      simpa [epochBatches, effRest] using h3
    refine ⟨hperm, ?_⟩
    have := hperm.length_eq
    rwa [List.length_flatten] at this

/-- Witness for C5 at the scenario-1 configuration and dataset. -/
theorem C5_conservation_witness :
    (1 ≤ cfgC2.miniBatch ∧ 1 ≤ cfgC2.maxiBatch) ∧
    (((epochBatches cfgC2 none 0 1 false 0 dataC2).flatten).Perm dataC2 ∧
      ((epochBatches cfgC2 none 0 1 false 0 dataC2).map List.length).sum =
        dataC2.length) :=
  ⟨⟨by decide, by decide⟩,
   (C5_conservation cfgC2 none 0 1 false dataC2 (by decide) (by decide)
     (by intro h; exact absurd h (by decide))).2 0⟩

/-- C6: the prefetch-overlap invariant — whenever `next()` returns a
non-null batch, the prefetch slot is running (the future is valid), and
the invariant "a non-empty local buffer implies a scheduled prefetch" is
established by `prepare` and preserved by every `next()`, null or not. -/
theorem C6_prefetch_overlap (cfg : Config) (stats : Option (List Nat → Nat))
    (base esz : Nat) :
    (∀ (g g' : Gen) (b : Batch), prefetchInv g →
      next cfg stats base esz g = some (some b, g') →
      g'.futValid = true ∧ prefetchInv g') ∧
    (∀ g g' : Gen, next cfg stats base esz g = some (none, g') →
      prefetchInv g') ∧
    (∀ (sh : Bool) (g g' : Gen), prepare sh g = some g' →
      prefetchInv g → prefetchInv g') := by
  refine ⟨?_, ?_, ?_⟩
  · intro g g' b hinv h
    unfold next at h
    cases hb : g.buffered with
    | cons c rest =>
      rw [hb] at h
      simp only [Option.some.injEq, Prod.mk.injEq] at h
      have hfv : g.futValid = true := hinv (by rw [hb]; simp)
      rw [← h.2]
      exact ⟨hfv, fun _ => hfv⟩
    | nil =>
      rw [hb] at h
      by_cases hf : g.futValid
      · cases hres : (fetchBatches cfg stats base esz g.shuffleFlag g.rng
            g.data g.reader).1 with
        | nil =>
          simp only [if_pos hf, hres] at h
          simp at h
        | cons c bs =>
          simp only [if_pos hf, hres, Option.some.injEq, Prod.mk.injEq] at h
          rw [← h.2]
          exact ⟨rfl, fun _ => rfl⟩
      · rw [if_neg hf] at h
        exact absurd h (by simp)
  · intro g g' h
    have hnull := next_null_state cfg stats base esz g g' h
    intro hne
    exact absurd hnull.1 hne
  · intro sh g g' h hinv
    unfold prepare at h
    by_cases hr : g.restored
    · rw [if_pos hr] at h
      simp only [Option.some.injEq] at h
      rw [← h]
      intro hne
      exact hinv hne
    · rw [if_neg hr] at h
      simp only at h
      by_cases hf : g.futValid
      · rw [if_pos hf] at h
        exact absurd h (by simp)
      · rw [if_neg hf] at h
        simp only [Option.some.injEq] at h
        rw [← h]
        intro hne
        rfl

/-- Witness for C6 on the one-sample epoch: serving the only batch leaves
the end-of-epoch prefetch scheduled. -/
theorem C6_prefetch_overlap_witness :
    prefetchInv genC1 ∧ genC1a.futValid = true ∧ prefetchInv genC1a :=
  ⟨fun h => absurd rfl h,
   (C6_prefetch_overlap cfgC2 none 0 1).1 genC1 genC1a [mkSample 1]
     (fun h => absurd rfl h) (by decide)⟩

/-- C7: `restore` returns false at epoch 1 with zero batches consumed and
when `no-restore-corpus` is set; otherwise it restores the dataset and
the batch RNG from `state.seedBatch` exactly when the epoch counter
exceeds 1, calls `prepare(shuffle)`, invokes `next()` exactly
`state.batchesEpoch` times discarding results, marks the generator
restored (making the next `prepare` a no-op), and returns true. -/
theorem C7_restore (cfg : Config) (stats : Option (List Nat → Nat))
    (base esz : Nat) (st : TrainingState) (sh : Bool) (g : Gen) :
    (st.epochs = 1 → st.batchesEpoch = 0 →
      restore cfg stats base esz st sh g = some (false, g)) ∧
    (¬ (st.epochs = 1 ∧ st.batchesEpoch = 0) → cfg.noRestoreCorpus = true →
      restore cfg stats base esz st sh g = some (false, g)) ∧
    (¬ (st.epochs = 1 ∧ st.batchesEpoch = 0) → cfg.noRestoreCorpus = false →
      restore cfg stats base esz st sh g =
        (match prepare sh (if 1 < st.epochs then
            { g with rng := st.seedBatch, dataRestored := true } else g) with
         | none => none
         | some g2 =>
           match nextTimes cfg stats base esz st.batchesEpoch g2 with
           | none => none
           | some g3 => some (true, { g3 with restored := true }))) ∧
    (∀ g' : Gen, restore cfg stats base esz st sh g = some (true, g') →
      g'.restored = true ∧
      ∀ sh2 : Bool, prepare sh2 g' = some { g' with restored := false }) := by
  refine ⟨?_, ?_, ?_, ?_⟩
  · intro ha hb
    simp [restore, ha, hb]
  · intro hne hno
    unfold restore
    rw [if_neg hne, if_pos (by simp [hno])]
  · intro hne hno
    unfold restore
    rw [if_neg hne, if_neg (by simp [hno])]
  · intro g' h
    unfold restore at h
    by_cases ha : st.epochs = 1 ∧ st.batchesEpoch = 0
    · rw [if_pos ha] at h
      simp at h
    · rw [if_neg ha] at h
      by_cases hb : cfg.noRestoreCorpus = true
      · rw [if_pos (by simp [hb])] at h
        simp at h
      · rw [if_neg (by simp [hb])] at h
        cases hp : prepare sh (if 1 < st.epochs then
            { g with rng := st.seedBatch, dataRestored := true } else g) with
        | none => simp only [hp] at h; exact absurd h (by simp)
        | some g2 =>
          simp only [hp] at h
          cases hn : nextTimes cfg stats base esz st.batchesEpoch g2 with
          | none => simp only [hn] at h; exact absurd h (by simp)
          | some g3 =>
            simp only [hn] at h
            simp only [Option.some.injEq, Prod.mk.injEq] at h
            rw [← h.2]
            refine ⟨rfl, fun sh2 => ?_⟩
            simp [prepare]

/-- Training state for the C7 witness: epoch 2, zero batches consumed in
the current epoch, batch-RNG seed 7. -/
def stC7 : TrainingState := ⟨2, 0, 7⟩

/-- Fresh generator for the C7 witness (no prefetch scheduled yet). -/
def genC7 : Gen := ⟨[mkSample 1], ⟨[mkSample 1], true⟩, 0, [], false, false, false, false⟩

/-- Expected generator after a successful `restore(stC7, false)`. -/
def genC7r : Gen := ⟨[mkSample 1], ⟨[mkSample 1], true⟩, 7, [], true, true, false, true⟩

/-- Witness for C7: a successful mid-training restore at epoch 2 restores
the RNG seed and the dataset, marks the generator restored, and the next
`prepare` is a no-op. -/
theorem C7_restore_witness :
    restore cfgC2 none 0 1 stC7 false genC7 = some (true, genC7r) ∧
    genC7r.restored = true ∧
    prepare true genC7r = some { genC7r with restored := false } :=
  ⟨by decide,
   ((C7_restore cfgC2 none 0 1 stC7 false genC7).2.2.2 genC7r (by decide)).1,
   ((C7_restore cfgC2 none 0 1 stC7 false genC7).2.2.2 genC7r (by decide)).2 true⟩

/-- C8 (counterexample): the queue does not pop in non-decreasing key
order; with `src` ordering and field-0 lengths 1 and 2 the pop sequence
is 2 then 1, which is decreasing (`std::priority_queue` with a
less-than comparator serves the largest element first). -/
theorem C8_counterexample :
    drainQ cmpSrc [mkSample 1, mkSample 2] = [mkSample 2, mkSample 1] ∧
    ¬ List.Pairwise (fun a b => cmpSrc b a = false)
      (drainQ cmpSrc [mkSample 1, mkSample 2]) :=
  ⟨by decide, by decide⟩

/-- C8 (amended): the ordering is selected from `maxi-batch-sort` exactly
as claimed — absent selects the arbitrary (address) order, `src` the
natural length-lexicographic order, `none` the address order, and any
other value the `trg` order — but the samples are popped in
NON-INCREASING order under the selected key (the queue serves maximal
elements first). -/
theorem C8_ordering :
    (∀ base esz : Nat, cmpOf none base esz = cmpNoneAddr base esz) ∧
    (∀ base esz : Nat, cmpOf (some "src") base esz =
      fun a b => cmpSrc a.2 b.2) ∧
    (∀ base esz : Nat, cmpOf (some "none") base esz = cmpNoneAddr base esz) ∧
    (∀ (base esz : Nat) (t : String), t ≠ "src" → t ≠ "none" →
      cmpOf (some t) base esz = fun a b => cmpTrg a.2 b.2) ∧
    (∀ l : List Sample, List.Pairwise (fun a b => cmpSrc a b = false)
      (drainQ cmpSrc l)) := by
  refine ⟨fun _ _ => rfl, fun _ _ => by simp [cmpOf], fun _ _ => by simp [cmpOf],
    fun base esz t h1 h2 => by simp [cmpOf, h1, h2],
    fun l => drainAux_pairwise cmpSrc_asymm cmpSrc_negTrans l.length l⟩

/-- Witness for C8: an unrecognized `maxi-batch-sort` value selects the
`trg` ordering. -/
theorem C8_ordering_witness :
    cmpOf (some "target") 0 1 = fun a b => cmpTrg a.2 b.2 :=
  C8_ordering.2.2.2.1 0 1 "target" (by decide) (by decide)

/-- C10: with an empty dataset the worker reads an empty window, the
cutter produces no batch, and the first `next()` after `prepare` joins
the empty window, returns null without aborting, and schedules no
further prefetch. -/
theorem C10_empty_dataset (cfg : Config) (stats : Option (List Nat → Nat))
    (base esz : Nat) (g : Gen)
    (hdata : g.data = []) (hnp : g.reader.newlyPrepared = true)
    (hbuf : g.buffered = []) (hfut : g.futValid = true) :
    fetchRead (maxSize cfg) g.data g.reader = ([], ⟨[], false⟩) ∧
    (fetchBatches cfg stats base esz g.shuffleFlag g.rng g.data g.reader).1 = [] ∧
    next cfg stats base esz g =
      some (none, { g with buffered := [], reader := ⟨[], false⟩, futValid := false }) := by
  have hfr : fetchRead (maxSize cfg) g.data g.reader = ([], ⟨[], false⟩) := by
    simp [fetchRead, hdata, hnp, readLoop]
  have hfb : fetchBatches cfg stats base esz g.shuffleFlag g.rng g.data g.reader =
      ([], ⟨[], false⟩, g.rng) := by
    by_cases hsh : g.shuffleFlag <;>
      simp [fetchBatches, fetchCore, hfr, cutBatches, popMax, shuffleRng,
        shuffleAux, hsh]
  refine ⟨hfr, by rw [hfb], ?_⟩
  unfold next
  rw [hbuf]
  simp only [if_pos hfut, hfb]

/-- Prepared generator over an empty dataset, for the C10 witness. -/
def genC10 : Gen := ⟨[], ⟨[], true⟩, 0, [], true, false, false, false⟩

/-- State after the first `next()` on the empty dataset: null returned,
no new prefetch scheduled. -/
def genC10b : Gen := ⟨[], ⟨[], false⟩, 0, [], false, false, false, false⟩

/-- Witness for C10 on a concrete empty-dataset generator. -/
theorem C10_empty_dataset_witness :
    fetchRead (maxSize cfgC2) genC10.data genC10.reader = ([], ⟨[], false⟩) ∧
    (fetchBatches cfgC2 none 0 1 genC10.shuffleFlag genC10.rng genC10.data
      genC10.reader).1 = [] ∧
    next cfgC2 none 0 1 genC10 = some (none, genC10b) :=
  C10_empty_dataset cfgC2 none 0 1 genC10 rfl rfl rfl rfl
